import Mathlib

/-!
Verification of the background-job engine and ingredient-resolution workflow
of the `spoils` backend (Rust), against its natural-language specification.

Rust strings are modelled as `String` / `List Char`; Rust byte lengths and
byte indices are modelled by summing the UTF-8 size of each character.
Machine integers (`u32`) are modelled as `Nat` with explicit `% 2 ^ 32`.
Floating-point nutrient values are modelled as exact rationals.
-/

set_option maxRecDepth 4000

namespace Spoils

/-- UTF-8 byte size of a character (Rust `char::len_utf8`). -/
def charSize (c : Char) : Nat :=
  if c.toNat ≤ 0x7F then 1
  else if c.toNat ≤ 0x7FF then 2
  else if c.toNat ≤ 0xFFFF then 3
  else 4

/-- UTF-8 byte length of a string given by its characters (Rust `str::len`). -/
def utf8Len : List Char → Nat
  | [] => 0
  | c :: cs => charSize c + utf8Len cs

/-- ASCII whitespace; agrees with Unicode `White_Space` (which Rust's
`char::is_whitespace` uses) on the ASCII range. -/
def isWsChar (c : Char) : Bool :=
  c.toNat = 32 || (9 ≤ c.toNat && c.toNat ≤ 13)

/-- Rust `str::trim`: drop whitespace at both ends. -/
def trimList (l : List Char) : List Char :=
  ((l.dropWhile isWsChar).reverse.dropWhile isWsChar).reverse

/-- Rust `str::trim_end_matches('.')`: drop every trailing period. -/
def trimEndDots (l : List Char) : List Char :=
  (l.reverse.dropWhile (fun c => c = '.')).reverse

/-- Rust `str::split(',')`: the fragments between commas (the empty string
splits into one empty fragment). -/
def splitComma : List Char → List (List Char)
  | [] => [[]]
  | c :: cs =>
    if c = ',' then [] :: splitComma cs
    else
      match splitComma cs with
      | [] => [[c]]
      | h :: t => (c :: h) :: t

/-- `CreateIngredientJob::parse_ingredient_list` (src/backend/src/jobs.rs,
lines 440-465): split on commas; trim each fragment and strip its trailing
periods; truncate at the first open-parenthesis and trim again; keep the
fragment when it is nonempty and its byte length (Rust `String::len`)
exceeds 1. -/
def parse_ingredient_list (s : String) : List String :=
  (splitComma s.data).filterMap fun part =>
    let clean := trimEndDots (trimList part)
    let clean2 := trimList (clean.takeWhile (fun c => c ≠ '('))
    if clean2 ≠ [] ∧ 1 < utf8Len clean2 then some (String.mk clean2) else none

/-- C3: the ingredient-statement decomposition parser, applied to the literal
inputs of the spec, returns exactly the listed fragments: `"Water, Sugar,
Salt."` yields `["Water", "Sugar", "Salt"]`, and `"Wheat Flour (Contains 2%
or less of Niacin)"` yields `["Wheat Flour"]`. -/
theorem c3_parse_literals :
    parse_ingredient_list "Water, Sugar, Salt." = ["Water", "Sugar", "Salt"] ∧
    parse_ingredient_list "Wheat Flour (Contains 2% or less of Niacin)" =
      ["Wheat Flour"] := by
  decide

/-- C4 counterexample: the parser produces the fragment `"é"`, which consists
of a single character (its UTF-8 encoding occupies two bytes, so it passes
the `clean.len() > 1` byte-length filter); so the parser does not discard
every single-character fragment, contrary to the claim. -/
theorem c4_single_char_fragment :
    parse_ingredient_list "é" = ["é"] ∧ ("é" : String).data.length = 1 := by
  decide

/-- C4 amended: every fragment the parser produces is nonempty and has UTF-8
byte length at least 2 (so single-character fragments are excluded only when
the character is a single byte); in particular the inputs `""` and `"A"`
produce no fragments. -/
theorem c4_fragment_byte_length :
    (∀ (s : String) (f : String), f ∈ parse_ingredient_list s →
      f ≠ "" ∧ 1 < utf8Len f.data) ∧
    parse_ingredient_list "" = [] ∧ parse_ingredient_list "A" = [] := by
  refine ⟨?_, by decide, by decide⟩
  intro s f hf
  simp only [parse_ingredient_list, List.mem_filterMap] at hf
  obtain ⟨part, -, hpart⟩ := hf
  split at hpart
  · rename_i hcond
    cases hpart
    exact ⟨fun e => hcond.1 (congrArg String.data e), hcond.2⟩
  · exact absurd hpart (by simp)

/-- C4 witness: a concrete fragment produced by the parser, at which the
amended bound is discharged. -/
theorem c4_fragment_byte_length_witness :
    ("Water" : String) ≠ "" ∧ 1 < utf8Len ("Water" : String).data :=
  c4_fragment_byte_length.1 "Water, Sugar" "Water" (by decide)

/-- Payload of a `create_ingredient` job (src/backend/src/jobs.rs, lines
152-157). -/
structure CreateIngredientJob where
  name : String
deriving DecidableEq

/-- `AsyncRunnable::task_type` for `CreateIngredientJob` (jobs.rs:267-269). -/
def createIngredientTaskType : String := "create_ingredient"

/-- `AsyncRunnable::uniq` for `CreateIngredientJob` (jobs.rs:263-265). -/
def createIngredientUniq : Bool := true

/-- `AsyncRunnable::max_retries` for `CreateIngredientJob` (jobs.rs:271-273). -/
def createIngredientMaxRetries : Int := 3

/-- Postgres `LOWER` on one character, as used by the
`LOWER(name) = LOWER('…')` filter; faithful on ASCII, where it folds
`A`-`Z` to `a`-`z`. -/
def lowerChar (c : Char) : Char :=
  if 65 ≤ c.toNat ∧ c.toNat ≤ 90 then Char.ofNat (c.toNat + 32) else c

/-- Postgres `LOWER` applied to a whole string. -/
def lowerString (s : String) : String := String.mk (s.data.map lowerChar)

/-- `Ingredient::find_or_enqueue_for_creation` (src/backend/src/models.rs,
lines 126-195), with the database abstracted as the list of `(id, name)`
ingredient rows: return the id of the first row whose name matches
case-insensitively, enqueueing nothing; otherwise return no id and enqueue
one `create_ingredient` job carrying the requested name verbatim. -/
def find_or_enqueue_for_creation (ingredient_name : String)
    (db : List (Int × String)) : Option Int × List CreateIngredientJob :=
  match db.find? (fun e => lowerString e.2 == lowerString ingredient_name) with
  | some e => (some e.1, [])
  | none => (none, [{ name := ingredient_name }])

/-- Modelled from the spec: the job store's uniqueness key is "derived from
`(task_type, payload)`" (§3). The derivation itself lives in the external
queue crate (fang), not under src/; for a `create_ingredient` job the
payload is its `name` field. -/
def uniquenessKey (j : CreateIngredientJob) : String × String :=
  (createIngredientTaskType, j.name)

/-- Modelled from the spec: "Normalize `name` (trim, case-fold for
comparison)" (§4.4); no such normalization step exists in
`find_or_enqueue_for_creation` itself. -/
def specNormalize (s : String) : String := lowerString (String.mk (trimList s.data))

/-- C2: `find_or_enqueue_for_creation` returns the existing ingredient's id
and creates no job whenever a row with the same case-insensitive name
exists; when no such row exists it returns no id and enqueues one
`create_ingredient` job carrying that name. -/
theorem c2_find_or_enqueue (ingredient_name : String) (db : List (Int × String)) :
    ((∃ e ∈ db, lowerString e.2 = lowerString ingredient_name) →
      ∃ e ∈ db, lowerString e.2 = lowerString ingredient_name ∧
        find_or_enqueue_for_creation ingredient_name db = (some e.1, [])) ∧
    ((∀ e ∈ db, lowerString e.2 ≠ lowerString ingredient_name) →
      find_or_enqueue_for_creation ingredient_name db =
        (none, [{ name := ingredient_name }])) := by
  constructor
  · intro hex
    have hsome : (db.find? (fun e => lowerString e.2 == lowerString ingredient_name)).isSome := by
      rw [List.find?_isSome]
      obtain ⟨e, he, hm⟩ := hex
      exact ⟨e, he, by simpa using hm⟩
    obtain ⟨e, he⟩ := Option.isSome_iff_exists.mp hsome
    refine ⟨e, List.mem_of_find?_eq_some he, by simpa using List.find?_some he, ?_⟩
    simp [find_or_enqueue_for_creation, he]
  · intro hnone
    have h : db.find? (fun e => lowerString e.2 == lowerString ingredient_name) = none := by
      rw [List.find?_eq_none]
      intro e he
      simpa using hnone e he
    simp [find_or_enqueue_for_creation, h]

/-- C2 witness: both branches of the theorem at concrete inputs — the row
`(7, "salt")` satisfies the lookup for `"Salt"`, and an empty database sends
`"Salt"` to the enqueue branch. -/
theorem c2_find_or_enqueue_witness :
    (∃ e ∈ [((7 : Int), "salt")], lowerString e.2 = lowerString "Salt" ∧
      find_or_enqueue_for_creation "Salt" [((7 : Int), "salt")] = (some e.1, [])) ∧
    find_or_enqueue_for_creation "Salt" [] = (none, [{ name := "Salt" }]) :=
  ⟨(c2_find_or_enqueue "Salt" [((7 : Int), "salt")]).1 (by decide),
   (c2_find_or_enqueue "Salt" []).2 (by decide)⟩

/-- C1 counterexample: `"Salt"` and `"salt"` normalize to the same name, and
with no matching ingredient in the database each call enqueues a
`create_ingredient` job — but the two jobs carry the names verbatim, so
their uniqueness keys (derived from `(task_type, payload)`) differ; the two
jobs do not collapse onto one. -/
theorem c1_distinct_keys :
    specNormalize "Salt" = specNormalize "salt" ∧
    find_or_enqueue_for_creation "Salt" [] = (none, [{ name := "Salt" }]) ∧
    find_or_enqueue_for_creation "salt" [] = (none, [{ name := "salt" }]) ∧
    uniquenessKey { name := "Salt" } ≠ uniquenessKey { name := "salt" } := by
  decide

/-- C1 amended: when neither name matches an existing ingredient
case-insensitively, each call enqueues exactly one job, and the two jobs
carry the same uniqueness key if and only if the two names are exactly
(byte-for-byte) equal — case-folding and trimming apply only to the
database lookup, not to the enqueued payload. -/
theorem c1_key_iff_exact_name (n1 n2 : String) (db : List (Int × String))
    (h1 : ∀ e ∈ db, lowerString e.2 ≠ lowerString n1)
    (h2 : ∀ e ∈ db, lowerString e.2 ≠ lowerString n2) :
    ∃ j1 j2, (find_or_enqueue_for_creation n1 db).2 = [j1] ∧
      (find_or_enqueue_for_creation n2 db).2 = [j2] ∧
      (uniquenessKey j1 = uniquenessKey j2 ↔ n1 = n2) := by
  refine ⟨{ name := n1 }, { name := n2 }, ?_, ?_, ?_⟩
  · rw [(c2_find_or_enqueue n1 db).2 h1]
  · rw [(c2_find_or_enqueue n2 db).2 h2]
  · simp [uniquenessKey]

/-- C1 witness: the amended statement at the names `"Salt"` and `"salt"`
over an empty database. -/
theorem c1_key_iff_exact_name_witness :
    ∃ j1 j2, (find_or_enqueue_for_creation "Salt" []).2 = [j1] ∧
      (find_or_enqueue_for_creation "salt" []).2 = [j2] ∧
      (uniquenessKey j1 = uniquenessKey j2 ↔ ("Salt" : String) = "salt") :=
  c1_key_iff_exact_name "Salt" "salt" [] (by decide) (by decide)

/-- `FetchProductJob::backoff` (src/backend/src/jobs.rs, lines 62-65):
`60 * 2_u32.pow(attempt)` in wrapping 32-bit arithmetic. -/
def backoff (attempt : Nat) : Nat :=
  (60 * (2 ^ attempt % 2 ^ 32)) % 2 ^ 32

/-- C5 counterexample: at attempt 27 the 32-bit multiplication
`60 * 2_u32.pow(27)` wraps, so the backoff is not `60 * 2 ^ 27` seconds. -/
theorem c5_backoff_wraps : backoff 27 ≠ 60 * 2 ^ 27 := by decide

/-- C5 amended: for every attempt `n` whose ideal delay fits in a `u32`
(that is, `60 * 2 ^ n < 2 ^ 32`, so every `n ≤ 26` — in particular every
attempt within the retry budget of 3), the backoff is exactly `60 * 2 ^ n`
seconds, giving the successive delays 60s, 120s, 240s, … for attempts
0, 1, 2, …. -/
theorem c5_backoff_exact (n : Nat) (h : 60 * 2 ^ n < 2 ^ 32) :
    backoff n = 60 * 2 ^ n := by
  have h2 : 2 ^ n < 2 ^ 32 := by
    calc 2 ^ n ≤ 60 * 2 ^ n := Nat.le_mul_of_pos_left _ (by norm_num)
    _ < 2 ^ 32 := h
  unfold backoff
  rw [Nat.mod_eq_of_lt h2, Nat.mod_eq_of_lt h]

/-- C5 witness: the first three retry delays are 60s, 120s and 240s. -/
theorem c5_backoff_exact_witness :
    backoff 0 = 60 * 2 ^ 0 ∧ backoff 1 = 60 * 2 ^ 1 ∧ backoff 2 = 60 * 2 ^ 2 :=
  ⟨c5_backoff_exact 0 (by norm_num), c5_backoff_exact 1 (by norm_num),
   c5_backoff_exact 2 (by norm_num)⟩

/-- One entry of a USDA food's `foodNutrients` array, reduced to the two
fields `extract_nutrition_data` reads; a `none` field models a missing key
or one of the wrong JSON type. -/
structure Nutrient where
  nutrientId : Option Int
  value : Option ℚ
deriving DecidableEq

/-- A USDA food record, reduced to the fields the job reads: the
`foodNutrients` array and the two possible free-text ingredient-statement
fields. -/
structure Food where
  foodNutrients : Option (List Nutrient)
  ingredients : Option String
  ingredientStatement : Option String
deriving DecidableEq

/-- The parsed body of a USDA search response, reduced to its `foods`
array. -/
structure UsdaResponse where
  foods : Option (List Food)
deriving DecidableEq

/-- Outcome of the HTTP round-trip in `fetch_usda_data`: the send failed,
the body failed to parse, or a body was parsed. -/
inductive FetchOutcome
  | fetchErr
  | parseErr
  | ok (resp : UsdaResponse)
deriving DecidableEq

/-- `USDANutritionData` (src/backend/src/jobs.rs, lines 276-283); nutrient
values are per gram, floating point modelled as exact rationals. -/
structure USDANutritionData where
  protein : Option ℚ
  carbs : Option ℚ
  fat : Option ℚ
  fiber : Option ℚ
  food_data : Food
deriving DecidableEq

/-- `NewIngredient` (src/backend/src/models.rs, lines 88-97). -/
structure NewIngredient where
  name : String
  branded : Bool
  gram_protein_per_gram : Option ℚ
  gram_carbs_per_gram : Option ℚ
  gram_fat_per_gram : Option ℚ
  gram_fiber_per_gram : Option ℚ
deriving DecidableEq

/-- `fang::FangError`, the error type a job's `run` returns. -/
structure FangError where
  description : String
deriving DecidableEq

/-- Accumulator of the nutrient loop in `extract_nutrition_data`: the four
mutable `Option` locals. -/
structure MacroAcc where
  protein : Option ℚ
  carbs : Option ℚ
  fat : Option ℚ
  fiber : Option ℚ
deriving DecidableEq

/-- One iteration of the nutrient loop (jobs.rs:348-363): when both
`nutrientId` and `value` are present, `value / 100` is written into the
field selected by the USDA nutrient id (1003 protein, 1005 carbs, 1004 fat,
1079 fiber); otherwise the accumulator is unchanged. -/
def updateMacros (acc : MacroAcc) (n : Nutrient) : MacroAcc :=
  match n.nutrientId, n.value with
  | some nid, some v =>
    let value_per_gram := v / 100
    if nid = 1003 then { acc with protein := some value_per_gram }
    else if nid = 1005 then { acc with carbs := some value_per_gram }
    else if nid = 1004 then { acc with fat := some value_per_gram }
    else if nid = 1079 then { acc with fiber := some value_per_gram }
    else acc
  | _, _ => acc

/-- `CreateIngredientJob::extract_nutrition_data` (src/backend/src/jobs.rs,
lines 338-377): `none` when the food carries no `foodNutrients` array;
otherwise the fold of the nutrient loop, packaged with the full food
record. -/
def extract_nutrition_data (food : Food) : Option USDANutritionData :=
  match food.foodNutrients with
  | none => none
  | some nutrients =>
    let acc := nutrients.foldl updateMacros ⟨none, none, none, none⟩
    some { protein := acc.protein, carbs := acc.carbs, fat := acc.fat,
           fiber := acc.fiber, food_data := food }

/-- `CreateIngredientJob::fetch_usda_data` (src/backend/src/jobs.rs, lines
287-335), over the abstract outcome of the HTTP round-trip: a send error, a
body-parse error, and a missing or empty `foods` array all yield `none`;
otherwise the first food is handed to `extract_nutrition_data`. -/
def fetch_usda_data : FetchOutcome → Option USDANutritionData
  | .fetchErr => none
  | .parseErr => none
  | .ok resp =>
    match resp.foods with
    | none => none
    | some [] => none
    | some (f :: _) => extract_nutrition_data f

/-- The free-text ingredient statement of a food: the `ingredients` field,
falling back to `ingredientStatement` (jobs.rs:385-388). -/
def ingredientsTextOf (f : Food) : Option String :=
  match f.ingredients with
  | some t => some t
  | none => f.ingredientStatement

/-- `CreateIngredientJob::process_sub_ingredients` (src/backend/src/jobs.rs,
lines 380-437): the `create_ingredient` jobs enqueued for the
sub-ingredients of `usda_data` — one job per fragment of the parsed
ingredient statement, carrying the fragment verbatim; no fragment is
filtered against the parent job (its name is unused beyond logging). -/
def process_sub_ingredients (_parent : CreateIngredientJob)
    (usda_data : USDANutritionData) : List CreateIngredientJob :=
  match ingredientsTextOf usda_data.food_data with
  | none => []
  | some text =>
    let sub_ingredients := parse_ingredient_list text
    if sub_ingredients.isEmpty then []
    else sub_ingredients.map fun n => { name := n }

/-- `AsyncRunnable::run` for `CreateIngredientJob` (src/backend/src/jobs.rs,
lines 193-261), with the HTTP round-trip abstracted as a `FetchOutcome` and
the database insert as an `Except` outcome: yields the `NewIngredient` row
handed to the insert, together with either the enqueued sub-ingredient jobs
(insert succeeded) or the `FangError` built from the database error (insert
failed). -/
def runCreateIngredient (job : CreateIngredientJob) (outcome : FetchOutcome)
    (insertResult : Except String Int) :
    NewIngredient × Except FangError (List CreateIngredientJob) :=
  let usda_data := fetch_usda_data outcome
  let new_ingredient : NewIngredient :=
    match usda_data with
    | some data =>
      { name := job.name, branded := false,
        gram_protein_per_gram := data.protein,
        gram_carbs_per_gram := data.carbs,
        gram_fat_per_gram := data.fat,
        gram_fiber_per_gram := data.fiber }
    | none =>
      { name := job.name, branded := false,
        gram_protein_per_gram := none, gram_carbs_per_gram := none,
        gram_fat_per_gram := none, gram_fiber_per_gram := none }
  match insertResult with
  | .ok _created_id =>
    let subs := match usda_data with
      | some data => process_sub_ingredients job data
      | none => []
    (new_ingredient, .ok subs)
  | .error e =>
    (new_ingredient, .error { description := "Database error: " ++ e })

/-- C6: whenever the fetched nutrition record carries a free-text ingredient
statement, a successful insert is followed by one `create_ingredient` job
per fragment surviving decomposition, each carrying the fragment verbatim —
for every parent job, so no fragment is compared against the parent's own
name and no visited set filters anything. -/
theorem c6_unconditional_fanout (job : CreateIngredientJob) (cid : Int)
    (outcome : FetchOutcome) (d : USDANutritionData) (text : String)
    (h1 : fetch_usda_data outcome = some d)
    (h2 : ingredientsTextOf d.food_data = some text) :
    (runCreateIngredient job outcome (.ok cid)).2 =
      Except.ok ((parse_ingredient_list text).map
        fun n => ({ name := n } : CreateIngredientJob)) := by
  by_cases hE : (parse_ingredient_list text).isEmpty
  · have he : parse_ingredient_list text = [] := by simpa using hE
    simp [runCreateIngredient, h1, process_sub_ingredients, h2, he]
  · simp [runCreateIngredient, h1, process_sub_ingredients, h2, hE]

/-- C6 witness: a parent job named `"Water"` whose fetched record lists
`"Water, Sugar, Salt."` — a job is enqueued even for the parent's own
name. -/
theorem c6_unconditional_fanout_witness :
    (runCreateIngredient { name := "Water" }
        (.ok ⟨some [⟨some [], some "Water, Sugar, Salt.", none⟩]⟩)
        (.ok 1)).2 =
      Except.ok [{ name := "Water" }, { name := "Sugar" }, { name := "Salt" }] :=
  c6_unconditional_fanout { name := "Water" } 1
    (.ok ⟨some [⟨some [], some "Water, Sugar, Salt.", none⟩]⟩)
    ⟨none, none, none, none, ⟨some [], some "Water, Sugar, Salt.", none⟩⟩
    "Water, Sugar, Salt." rfl rfl

/-- C7: a fetch error, a response-parse failure and an empty result set are
all treated identically as "no data" (`fetch_usda_data` yields `none`), and
in each of those cases the job still hands the insert an ingredient row
carrying the name only and terminates successfully. -/
theorem c7_no_data_uniform (job : CreateIngredientJob) (cid : Int)
    (resp : UsdaResponse) (h : resp.foods = some []) :
    fetch_usda_data .fetchErr = none ∧
    fetch_usda_data .parseErr = none ∧
    fetch_usda_data (.ok resp) = none ∧
    runCreateIngredient job .fetchErr (.ok cid) =
      ({ name := job.name, branded := false,
         gram_protein_per_gram := none, gram_carbs_per_gram := none,
         gram_fat_per_gram := none, gram_fiber_per_gram := none }, .ok []) ∧
    runCreateIngredient job .parseErr (.ok cid) =
      ({ name := job.name, branded := false,
         gram_protein_per_gram := none, gram_carbs_per_gram := none,
         gram_fat_per_gram := none, gram_fiber_per_gram := none }, .ok []) ∧
    runCreateIngredient job (.ok resp) (.ok cid) =
      ({ name := job.name, branded := false,
         gram_protein_per_gram := none, gram_carbs_per_gram := none,
         gram_fat_per_gram := none, gram_fiber_per_gram := none }, .ok []) := by
  have hf : fetch_usda_data (.ok resp) = none := by
    simp [fetch_usda_data, h]
  exact ⟨rfl, rfl, hf, rfl, rfl, by simp [runCreateIngredient, hf]⟩

/-- C7 witness: the theorem at a concrete job and an empty `foods` array. -/
theorem c7_no_data_uniform_witness :
    fetch_usda_data .fetchErr = none ∧
    fetch_usda_data .parseErr = none ∧
    fetch_usda_data (.ok ⟨some []⟩) = none ∧
    runCreateIngredient { name := "Salt" } .fetchErr (.ok 1) =
      ({ name := "Salt", branded := false,
         gram_protein_per_gram := none, gram_carbs_per_gram := none,
         gram_fat_per_gram := none, gram_fiber_per_gram := none }, .ok []) ∧
    runCreateIngredient { name := "Salt" } .parseErr (.ok 1) =
      ({ name := "Salt", branded := false,
         gram_protein_per_gram := none, gram_carbs_per_gram := none,
         gram_fat_per_gram := none, gram_fiber_per_gram := none }, .ok []) ∧
    runCreateIngredient { name := "Salt" } (.ok ⟨some []⟩) (.ok 1) =
      ({ name := "Salt", branded := false,
         gram_protein_per_gram := none, gram_carbs_per_gram := none,
         gram_fat_per_gram := none, gram_fiber_per_gram := none }, .ok []) :=
  c7_no_data_uniform { name := "Salt" } 1 ⟨some []⟩ rfl

/-- C9: when the database insert fails, `run` surfaces the failure as a
returned `FangError` (which the engine's retry policy handles, the job's
retry budget being positive), never as a crash. -/
theorem c9_insert_failure_error (job : CreateIngredientJob)
    (outcome : FetchOutcome) (err : String) :
    (runCreateIngredient job outcome (.error err)).2 =
      .error { description := "Database error: " ++ err } ∧
    (0 : Int) < createIngredientMaxRetries :=
  ⟨rfl, by decide⟩

/-- The `value` of the last nutrient in the list that carries
`nutrientId = tid` together with a value: the left fold in
`extract_nutrition_data` lets later entries overwrite earlier ones. -/
def lastValueWithId (tid : Int) : List Nutrient → Option ℚ
  | [] => none
  | n :: ns =>
    match lastValueWithId tid ns with
    | some v => some v
    | none =>
      match n.nutrientId, n.value with
      | some nid, some v => if nid = tid then some v else none
      | _, _ => none

lemma updateMacros_protein (acc : MacroAcc) (n : Nutrient) :
    (updateMacros acc n).protein =
      match n.nutrientId, n.value with
      | some nid, some v => if nid = 1003 then some (v / 100) else acc.protein
      | _, _ => acc.protein := by
  rcases n with ⟨nid?, v?⟩
  rcases nid? with _ | nid <;> rcases v? with _ | v <;> simp [updateMacros]
  split_ifs <;> simp

lemma updateMacros_carbs (acc : MacroAcc) (n : Nutrient) :
    (updateMacros acc n).carbs =
      match n.nutrientId, n.value with
      | some nid, some v => if nid = 1005 then some (v / 100) else acc.carbs
      | _, _ => acc.carbs := by
  rcases n with ⟨nid?, v?⟩
  rcases nid? with _ | nid <;> rcases v? with _ | v <;> simp [updateMacros]
  split_ifs <;> simp_all

lemma updateMacros_fat (acc : MacroAcc) (n : Nutrient) :
    (updateMacros acc n).fat =
      match n.nutrientId, n.value with
      | some nid, some v => if nid = 1004 then some (v / 100) else acc.fat
      | _, _ => acc.fat := by
  rcases n with ⟨nid?, v?⟩
  rcases nid? with _ | nid <;> rcases v? with _ | v <;> simp [updateMacros]
  split_ifs <;> simp_all

lemma updateMacros_fiber (acc : MacroAcc) (n : Nutrient) :
    (updateMacros acc n).fiber =
      match n.nutrientId, n.value with
      | some nid, some v => if nid = 1079 then some (v / 100) else acc.fiber
      | _, _ => acc.fiber := by
  rcases n with ⟨nid?, v?⟩
  rcases nid? with _ | nid <;> rcases v? with _ | v <;> simp [updateMacros]
  split_ifs <;> simp_all

lemma lastMatch_step (tid : Int) (n : Nutrient) (ns : List Nutrient)
    (d : Option ℚ) :
    (match lastValueWithId tid ns with
     | some v => some (v / 100)
     | none =>
       match n.nutrientId, n.value with
       | some nid, some v => if nid = tid then some (v / 100) else d
       | _, _ => d) =
    (match lastValueWithId tid (n :: ns) with
     | some v => some (v / 100)
     | none => d) := by
  cases h : lastValueWithId tid ns with
  | some v => simp [lastValueWithId, h]
  | none =>
    simp only [lastValueWithId, h]
    rcases hn : n.nutrientId with _ | nid <;> rcases hv : n.value with _ | v <;>
      simp
    by_cases ht : nid = tid <;> simp [ht]

lemma foldl_updateMacros (ns : List Nutrient) (acc : MacroAcc) :
    ns.foldl updateMacros acc =
      { protein := match lastValueWithId 1003 ns with
          | some v => some (v / 100) | none => acc.protein,
        carbs := match lastValueWithId 1005 ns with
          | some v => some (v / 100) | none => acc.carbs,
        fat := match lastValueWithId 1004 ns with
          | some v => some (v / 100) | none => acc.fat,
        fiber := match lastValueWithId 1079 ns with
          | some v => some (v / 100) | none => acc.fiber } := by
  induction ns generalizing acc with
  | nil => rfl
  | cons n ns ih =>
    rw [List.foldl_cons, ih]
    simp only [MacroAcc.mk.injEq]
    refine ⟨?_, ?_, ?_, ?_⟩
    · rw [updateMacros_protein]; exact lastMatch_step 1003 n ns acc.protein
    · rw [updateMacros_carbs]; exact lastMatch_step 1005 n ns acc.carbs
    · rw [updateMacros_fat]; exact lastMatch_step 1004 n ns acc.fat
    · rw [updateMacros_fiber]; exact lastMatch_step 1079 n ns acc.fiber

lemma match_div_eq_map (o : Option ℚ) :
    (match o with | some v => some (v / 100) | none => none) =
      o.map (fun v => v / 100) := by
  cases o <;> rfl

/-- C8: for each macro-nutrient (USDA ids 1003 protein, 1005 carbs, 1004
fat, 1079 fiber) the value handed to the ingredient insert equals the
provider's per-100-unit value divided by 100 (for the last matching entry,
since later entries overwrite), and a nutrient absent from the provider
record is stored as `none`. -/
theorem c8_macro_values (job : CreateIngredientJob) (cid : Int) (food : Food)
    (rest : List Food) (nutrients : List Nutrient)
    (h : food.foodNutrients = some nutrients) :
    (runCreateIngredient job (.ok ⟨some (food :: rest)⟩) (.ok cid)).1 =
      { name := job.name, branded := false,
        gram_protein_per_gram :=
          (lastValueWithId 1003 nutrients).map (fun v => v / 100),
        gram_carbs_per_gram :=
          (lastValueWithId 1005 nutrients).map (fun v => v / 100),
        gram_fat_per_gram :=
          (lastValueWithId 1004 nutrients).map (fun v => v / 100),
        gram_fiber_per_gram :=
          (lastValueWithId 1079 nutrients).map (fun v => v / 100) } := by
  have hx : extract_nutrition_data food = some
      { protein := (lastValueWithId 1003 nutrients).map (fun v => v / 100),
        carbs := (lastValueWithId 1005 nutrients).map (fun v => v / 100),
        fat := (lastValueWithId 1004 nutrients).map (fun v => v / 100),
        fiber := (lastValueWithId 1079 nutrients).map (fun v => v / 100),
        food_data := food } := by
    simp [extract_nutrition_data, h, foldl_updateMacros, match_div_eq_map]
  simp [runCreateIngredient, fetch_usda_data, hx]

/-- C8 witness: a provider record whose only nutrient is 50 units of
protein (id 1003) per 100 units; the row stores `50 / 100` protein per
gram and `none` for the absent carbs, fat and fiber. -/
theorem c8_macro_values_witness :
    (runCreateIngredient { name := "Milk" }
        (.ok ⟨some [⟨some [⟨some 1003, some 50⟩], none, none⟩]⟩)
        (.ok 1)).1 =
      { name := "Milk", branded := false,
        gram_protein_per_gram := some ((50 : ℚ) / 100),
        gram_carbs_per_gram := none,
        gram_fat_per_gram := none,
        gram_fiber_per_gram := none } :=
  c8_macro_values { name := "Milk" } 1 ⟨some [⟨some 1003, some 50⟩], none, none⟩
    [] [⟨some 1003, some 50⟩] rfl

/-- Whether `m` is a leading segment of `l` (character-wise; for an ASCII
needle this coincides with Rust's byte-level matching, since an ASCII byte
never occurs inside a multi-byte UTF-8 character). -/
def isPrefixList : List Char → List Char → Bool
  | [], _ => true
  | _ :: _, [] => false
  | a :: as, b :: bs => a == b && isPrefixList as bs

/-- Rust `str::find`: the byte index of the first occurrence of `needle` in
`hay`, computed as the UTF-8 length of the skipped characters. -/
def strFind (needle : List Char) : List Char → Option Nat
  | [] => if isPrefixList needle [] then some 0 else none
  | c :: cs =>
    if isPrefixList needle (c :: cs) then some 0
    else (strFind needle cs).map (fun i => charSize c + i)

/-- Rust slicing `&s[i..]`: `none` models the panic when byte index `i`
exceeds the string's length or falls inside a multi-byte character. -/
def byteDrop : Nat → List Char → Option (List Char)
  | 0, l => some l
  | _ + 1, [] => none
  | i, c :: cs => if charSize c ≤ i then byteDrop (i - charSize c) cs else none

/-- Rust slicing `&s[..i]`: `none` models the panic when byte index `i`
exceeds the string's length or falls inside a multi-byte character. -/
def byteTake : Nat → List Char → Option (List Char)
  | 0, _ => some []
  | _ + 1, [] => none
  | i, c :: cs =>
    if charSize c ≤ i then (byteTake (i - charSize c) cs).map (fun r => c :: r)
    else none

/-- One character of Rust `str::to_lowercase`, modelled on the characters
this development exercises: on ASCII it folds `A`-`Z`, and U+0130 (`İ`)
lowercases to `i` followed by the combining dot above U+0307 (per Unicode
SpecialCasing), growing from two UTF-8 bytes to three. -/
def rustLowerChar (c : Char) : List Char :=
  if c = Char.ofNat 0x130 then [Char.ofNat 0x69, Char.ofNat 0x307]
  else [lowerChar c]

/-- Rust `str::to_lowercase` over the modelled characters. -/
def rustToLowercase : List Char → List Char
  | [] => []
  | c :: cs => rustLowerChar c ++ rustToLowercase cs

/-- Rust `char::is_uppercase`, restricted to ASCII (where it coincides with
`A`-`Z`; the theorems below only ever evaluate it on ASCII input). -/
def isRustUpper (c : Char) : Bool :=
  65 ≤ c.toNat && c.toNat ≤ 90

/-- The end byte index for the slice of `remaining_text`
(src/backend/src/main.rs, lines 456-466): the byte index of the first
`". "` when the character at list position `idx + 2` is uppercase (the code
mixes the byte index `idx` into `chars().nth`, faithfully modelled),
otherwise the full byte length. -/
def extractEndIdx (remaining : List Char) : Nat :=
  match strFind ['.', ' '] remaining with
  | some idx =>
    match remaining[idx + 2]? with
    | some c => if isRustUpper c then idx else utf8Len remaining
    | none => utf8Len remaining
  | none => utf8Len remaining

/-- The body of one marker iteration of `extract_ingredients_from_text`
(src/backend/src/main.rs, lines 449-472), entered once the marker was found
at byte index `startIdx` of the lowercased text: slice the ORIGINAL text
from `startIdx + marker.len()` (this slice can panic, modelled by `none`),
cut at `extractEndIdx`, trim, and return the result when nonempty
(`some (some r)`) or fall through to the next marker (`some none`). -/
def extractAtMarker (text : List Char) (startIdx : Nat) (m : List Char) :
    Option (Option (List Char)) :=
  match byteDrop (startIdx + utf8Len m) text with
  | none => none
  | some remaining =>
    match byteTake (extractEndIdx remaining) remaining with
    | none => none
    | some sliced =>
      if (trimList sliced).isEmpty then some none
      else some (some (trimList sliced))

/-- The marker loop of `extract_ingredients_from_text`: markers are looked
up in the LOWERCASED text, but the byte index found there is applied to the
original text. `none` models a panic; `some r` is the function's return
value `r`. -/
def extractIngredientsLoop (text textLower : List Char) :
    List (List Char) → Option (Option (List Char))
  | [] => some none
  | m :: ms =>
    match strFind m textLower with
    | none => extractIngredientsLoop text textLower ms
    | some startIdx =>
      match extractAtMarker text startIdx m with
      | none => none
      | some none => extractIngredientsLoop text textLower ms
      | some (some r) => some (some r)

/-- `extract_ingredients_from_text` (src/backend/src/main.rs, lines
437-476): locate one of the ingredient markers in the lowercased text and
return the text that follows; `none` models a panic. -/
def extract_ingredients_from_text (text : List Char) :
    Option (Option (List Char)) :=
  extractIngredientsLoop text (rustToLowercase text)
    ["ingredients:".data, "contains:".data, "active ingredients:".data,
     "inactive ingredients:".data, "other ingredients:".data]

/-- C10 counterexample: on `"İİİcontains:"` the marker `"contains:"` is
found at byte index 9 of the lowercased text (each `İ` lowercases to the
three-byte `i` + U+0307), but slicing the ORIGINAL text — 15 bytes long —
at byte 18 is out of bounds: the function panics, so it is not total. -/
theorem c10_panic_nonascii :
    extract_ingredients_from_text "İİİcontains:".data = none := by
  decide

lemma charSize_ascii {c : Char} (h : c.toNat < 128) : charSize c = 1 := by
  unfold charSize
  rw [if_pos (by omega)]

lemma utf8Len_ascii {l : List Char} (h : ∀ c ∈ l, c.toNat < 128) :
    utf8Len l = l.length := by
  induction l with
  | nil => rfl
  | cons c cs ih =>
    simp only [utf8Len, List.length_cons]
    rw [charSize_ascii (h c (by simp)), ih (fun x hx => h x (by simp [hx]))]
    omega

lemma ofNat_shift_ascii (n : Nat) (h65 : 65 ≤ n) (h90 : n ≤ 90) :
    (Char.ofNat (n + 32)).toNat < 128 := by
  interval_cases n <;> decide

lemma lowerChar_ascii {c : Char} (h : c.toNat < 128) :
    (lowerChar c).toNat < 128 := by
  unfold lowerChar
  split
  · rename_i hc
    exact ofNat_shift_ascii c.toNat hc.1 hc.2
  · exact h

lemma rustToLowercase_ascii {l : List Char} (h : ∀ c ∈ l, c.toNat < 128) :
    rustToLowercase l = l.map lowerChar := by
  induction l with
  | nil => rfl
  | cons c cs ih =>
    have hc : c.toNat < 128 := h c (by simp)
    have hne : c ≠ Char.ofNat 0x130 := by
      intro e
      rw [e] at hc
      revert hc
      decide
    simp [rustToLowercase, rustLowerChar, hne,
      ih (fun x hx => h x (by simp [hx]))]

lemma utf8Len_rustToLowercase {l : List Char} (h : ∀ c ∈ l, c.toNat < 128) :
    utf8Len (rustToLowercase l) = l.length := by
  rw [rustToLowercase_ascii h, utf8Len_ascii, List.length_map]
  intro c hc
  obtain ⟨a, ha, rfl⟩ := List.mem_map.mp hc
  exact lowerChar_ascii (h a ha)

lemma isPrefixList_utf8Len {m l : List Char} (h : isPrefixList m l = true) :
    utf8Len m ≤ utf8Len l := by
  induction m generalizing l with
  | nil => simp [utf8Len]
  | cons a as ih =>
    cases l with
    | nil => simp [isPrefixList] at h
    | cons b bs =>
      simp only [isPrefixList, Bool.and_eq_true, beq_iff_eq] at h
      obtain ⟨rfl, h2⟩ := h
      simpa [utf8Len] using ih h2

lemma strFind_bound {m l : List Char} {i : Nat} (h : strFind m l = some i) :
    i + utf8Len m ≤ utf8Len l := by
  induction l generalizing i with
  | nil =>
    simp only [strFind] at h
    split at h
    · rename_i hp
      cases h
      simpa [utf8Len] using isPrefixList_utf8Len hp
    · exact absurd h (by simp)
  | cons c cs ih =>
    simp only [strFind] at h
    split at h
    · rename_i hp
      cases h
      simpa using isPrefixList_utf8Len hp
    · obtain ⟨j, hj, rfl⟩ := Option.map_eq_some'.mp h
      have := ih hj
      simp only [utf8Len]
      omega

lemma byteDrop_ascii {l : List Char} (h : ∀ c ∈ l, c.toNat < 128) :
    ∀ i, i ≤ l.length → byteDrop i l = some (l.drop i) := by
  induction l with
  | nil =>
    intro i hi
    have hz : i = 0 := by simpa using hi
    subst hz
    rfl
  | cons c cs ih =>
    intro i hi
    match i with
    | 0 => rfl
    | j + 1 =>
      have hc : charSize c = 1 := charSize_ascii (h c (by simp))
      have hcs : ∀ x ∈ cs, x.toNat < 128 := fun x hx => h x (by simp [hx])
      have hj : j ≤ cs.length := by simpa using hi
      simp only [byteDrop, hc]
      rw [if_pos (by omega : 1 ≤ j + 1)]
      show byteDrop j cs = some (List.drop j cs)
      exact ih hcs j hj

lemma byteTake_ascii {l : List Char} (h : ∀ c ∈ l, c.toNat < 128) :
    ∀ i, i ≤ l.length → (byteTake i l).isSome := by
  induction l with
  | nil =>
    intro i hi
    have hz : i = 0 := by simpa using hi
    subst hz
    rfl
  | cons c cs ih =>
    intro i hi
    match i with
    | 0 => rfl
    | j + 1 =>
      have hc : charSize c = 1 := charSize_ascii (h c (by simp))
      have hcs : ∀ x ∈ cs, x.toNat < 128 := fun x hx => h x (by simp [hx])
      have hj : j ≤ cs.length := by simpa using hi
      simp only [byteTake, hc]
      rw [if_pos (by omega : 1 ≤ j + 1)]
      obtain ⟨r, hr⟩ := Option.isSome_iff_exists.mp (ih hcs j hj)
      show (Option.map (fun r => c :: r) (byteTake j cs)).isSome = true
      rw [hr]
      rfl

lemma extractEndIdx_le {remaining : List Char}
    (h : ∀ c ∈ remaining, c.toNat < 128) :
    extractEndIdx remaining ≤ remaining.length := by
  have hlen : utf8Len remaining = remaining.length := utf8Len_ascii h
  cases hf : strFind ['.', ' '] remaining with
  | none => simp [extractEndIdx, hf, hlen]
  | some idx =>
    have hb : idx + utf8Len ['.', ' '] ≤ utf8Len remaining := strFind_bound hf
    have h2 : utf8Len ['.', ' '] = 2 := by decide
    cases hg : remaining[idx + 2]? with
    | none => simp [extractEndIdx, hf, hg, hlen]
    | some c =>
      simp only [extractEndIdx, hf, hg]
      split
      · omega
      · omega

lemma extractAtMarker_total {text : List Char}
    (h : ∀ c ∈ text, c.toNat < 128) {startIdx : Nat} {m : List Char}
    (hb : startIdx + utf8Len m ≤ text.length) :
    (extractAtMarker text startIdx m).isSome := by
  have hdrop := byteDrop_ascii h _ hb
  have hra : ∀ c ∈ text.drop (startIdx + utf8Len m), c.toNat < 128 :=
    fun c hc => h c (List.mem_of_mem_drop hc)
  have htake := byteTake_ascii hra (extractEndIdx (text.drop (startIdx + utf8Len m)))
    (extractEndIdx_le hra)
  obtain ⟨sliced, hs⟩ := Option.isSome_iff_exists.mp htake
  simp only [extractAtMarker, hdrop, hs]
  split <;> simp

lemma extractLoop_total {text : List Char}
    (h : ∀ c ∈ text, c.toNat < 128) :
    ∀ ms, (extractIngredientsLoop text (rustToLowercase text) ms).isSome := by
  intro ms
  induction ms with
  | nil => rfl
  | cons m ms ih =>
    simp only [extractIngredientsLoop]
    cases hf : strFind m (rustToLowercase text) with
    | none => exact ih
    | some startIdx =>
      have hbound : startIdx + utf8Len m ≤ text.length := by
        have h1 := strFind_bound hf
        have h2 := utf8Len_rustToLowercase h
        omega
      obtain ⟨r, hr⟩ :=
        Option.isSome_iff_exists.mp (extractAtMarker_total h hbound)
      show (match extractAtMarker text startIdx m with
        | none => none
        | some none => extractIngredientsLoop text (rustToLowercase text) ms
        | some (some r) => some (some r)).isSome = true
      rw [hr]
      cases r with
      | none => exact ih
      | some v => rfl

/-- C10 amended: on every ASCII input — where lowercasing preserves byte
offsets — `extract_ingredients_from_text` returns without panicking; the
claimed totality fails for non-ASCII inputs whose lowercased form has
different byte offsets, where the slice index computed on the lowercased
text is applied to the original and can fall out of bounds. -/
theorem c10_ascii_total (text : List Char)
    (h : ∀ c ∈ text, c.toNat < 128) :
    (extract_ingredients_from_text text).isSome :=
  extractLoop_total h _

/-- C10 witness: the function returns (without panicking) on a concrete
ASCII input. -/
theorem c10_ascii_total_witness :
    (extract_ingredients_from_text "Ingredients: Water, Salt".data).isSome :=
  c10_ascii_total "Ingredients: Water, Salt".data (by decide)

end Spoils
